import Mathlib

/-!
Verification of the adaptive optimization loop of `genetic.py`
(LifeFInances).  The mutable state and the numeric decision rules of
`Algorithm.main`, the mutators `_random_mutate` / `_step_mutate`, the tally
writer `_update_param_count` and the overtake check `_check_if_beaten` are
embedded shallowly: Python floats become `ℚ`, the random draws consumed by
`numpy` become explicit arguments, the Monte-Carlo oracle becomes an
`Option ℚ` result (`none` models the cancellation sentinel, the empty dict
returned by the simulator), and parameter dictionaries become parallel
lists ordered like `mutable_param_ranges`.
-/

namespace Genetic

/-- genetic.py line 33: threshold before switching from random to step mutations. -/
def SUCCESS_THRESH : ℚ := 1/2

/-- genetic.py line 35. -/
def TARGET_SUCCESS_RATE : ℚ := 95/100

/-- genetic.py line 36. -/
def INITIAL_MONTE_RUNS : ℕ := 100

/-- genetic.py line 37. -/
def MAX_MONTE_RUNS : ℕ := 5000

/-- genetic.py line 38: max number of generations the parent may beat all children. -/
def ITER_LIMIT : ℕ := 5

/-- genetic.py lines 221-222, `_make_child`: the Monte-Carlo budget placed in
`override_dict`, `int(max(INITIAL_MONTE_RUNS, min(MAX_MONTE_RUNS, MAX_MONTE_RUNS *
(success_rate + (1-TARGET_SUCCESS_RATE)) ** 70)))`.  The value is at least 100,
so Python `int` truncation is the floor. -/
def override_monte_carlo_runs (success_rate : ℚ) : ℤ :=
  ⌊max ((INITIAL_MONTE_RUNS : ℚ))
      (min ((MAX_MONTE_RUNS : ℚ))
        ((MAX_MONTE_RUNS : ℚ) * (success_rate + (1 - TARGET_SUCCESS_RATE)) ^ 70))⌋

/-- genetic.py line 109: the guard `success_rate >= TARGET_SUCCESS_RATE * 1.005`
that sends the loop into the CONFIRM re-evaluation. -/
def confirm_triggered (success_rate : ℚ) : Bool :=
  decide (TARGET_SUCCESS_RATE * (201/200) ≤ success_rate)

/-- genetic.py lines 86-103: the value of `parent_is_best_qty` at the end of one
EXPLORE generation, as a function of the parent's rate, the best child's rate
(`children[0][0]` after the descending sort) and the counter going in.  If the
parent is at least as good, the counter is incremented and, on reaching
`ITER_LIMIT`, reset to 0 for the local-maximum restart; if the best child is
strictly better, the counter is set to 0. -/
def plateau_update (success_rate best_child_rate : ℚ) (parent_is_best_qty : ℕ) : ℕ :=
  if best_child_rate ≤ success_rate then
    if ITER_LIMIT ≤ parent_is_best_qty + 1 then 0 else parent_is_best_qty + 1
  else 0

/-- genetic.py lines 163-168, `_check_if_beaten`: for every monitored job entry
the loop's own `last_date` is compared with the persisted one
(`income["last_date"] > load_params()[0][...]["last_date"]`), and `main()` is
restarted when some own entry is strictly greater.  The monitored fields of the
two full assignments are flattened into two parallel lists of dates. -/
def check_if_beaten (own persisted : List ℤ) : Bool :=
  (own.zip persisted).any fun p => decide (p.2 < p.1)

/-- Python truthiness of an `Optional[float]` success rate: `not x` is true for
the cancellation sentinel `None` and also for the float `0.0`. -/
def py_falsy_rate : Option ℚ → Bool
  | none => true
  | some r => decide (r = 0)

/-- genetic.py line 80 (`if not children[-1][0]: return None`), likewise lines
98 and 114: the guard on which `Algorithm.main` returns after a child
evaluation, applied to the first component of `_make_child`'s result
(`none` models the `(None, None)` returned on cancellation). -/
def explore_abort_guard (res : Option ℚ) : Bool := py_falsy_rate res

/-- State after the CONFIRM block of genetic.py lines 109-128: whether `main`
returned, the loop's `success_rate` and `parent_mute_param_vals` variables,
the module global `simulator.MONTE_CARLO_RUNS`, and whether the block reached
the ADVANCE branch (save and recurse). -/
structure ConfirmState where
  returned : Bool
  success_rate : ℚ
  parent : List ℚ
  monte_runs : ℕ
  advanced : Bool
deriving Repr, DecidableEq

/-- genetic.py lines 109-128: the CONFIRM block.  `prev_runs` is the value of
`simulator.MONTE_CARLO_RUNS` saved on line 111, `hi` the result of the
high-fidelity `_make_child` call (`none` = cancelled).  The global is set to
`MAX_MONTE_RUNS` before the call and restored on line 116 only after the
`if not success_rate: return None` check has passed; the loop variable
`success_rate` is overwritten by the high-fidelity rate on line 113 in every
non-returning case, while `parent_mute_param_vals` is never written here. -/
def confirm_block (prev_runs : ℕ) (success_rate : ℚ) (parent : List ℚ)
    (hi : Option ℚ) : ConfirmState :=
  if confirm_triggered success_rate then
    match hi with
    | none => ⟨true, success_rate, parent, MAX_MONTE_RUNS, false⟩
    | some r =>
      if r = 0 then ⟨true, success_rate, parent, MAX_MONTE_RUNS, false⟩
      else if r < TARGET_SUCCESS_RATE then ⟨false, r, parent, prev_runs, false⟩
      else ⟨false, r, parent, prev_runs, true⟩
  else ⟨false, success_rate, parent, prev_runs, false⟩

/-- genetic.py lines 170-179, `_gaussian_int`: the sample is drawn from the
support `np.arange(-max_deviation, max_deviation+1) + center`; the random
choice is modelled by the index `draw` into that support array (reduced
modulo its size `2*max_deviation+1`). -/
def gaussian_int (center : ℤ) (max_deviation : ℕ) (draw : ℕ) : ℤ :=
  center - max_deviation + (draw % (2 * max_deviation + 1))

/-- genetic.py line 133, one entry of the `_random_mutate` dict comprehension:
`np.random.choice(param_range)`, the uniform draw modelled as an index into
the range (reduced modulo its length). -/
def random_mutate_param (param_range : List ℚ) (draw : ℕ) : ℚ :=
  param_range.getD (draw % param_range.length) 0

/-- genetic.py lines 139-142, one iteration of `_step_mutate`'s loop: locate
the parent value's index, take a gaussian sample centered there, clamp it with
`min(len(param_range)-1, max(0, ·))`, and return the value at the new index.
For a nonempty range (the only case in which numpy indexing is defined) the
`ℕ`-valued clamp agrees with the source's integer clamp. -/
def step_mutate_param (param_range : List ℚ) (old_val : ℚ) (max_step : ℕ)
    (draw : ℕ) : ℚ :=
  param_range.getD
    (min (param_range.length - 1)
      (max 0 (gaussian_int (param_range.indexOf old_val) max_step draw)).toNat) 0

/-- genetic.py lines 138-142: the assignment built by one pass of
`_step_mutate` over all parameters (before the history check), pairing each
candidate range with the parent's value and one gaussian draw. -/
def step_mutate_list : List (List ℚ) → List ℚ → ℕ → List ℕ → List ℚ
  | r :: rs, v :: vs, s, d :: ds =>
      step_mutate_param r v s d :: step_mutate_list rs vs s ds
  | _, _, _, _ => []

/-- genetic.py line 133: `_random_mutate` over all parameters. -/
def random_mutate_list : List (List ℚ) → List ℕ → List ℚ
  | r :: rs, d :: ds => random_mutate_param r d :: random_mutate_list rs ds
  | _, _ => []

/-- genetic.py lines 135-147, `_step_mutate` including the history check on
line 143: compute an assignment from one batch of draws; if it is already in
`prev_used_params`, resample recursively with the next batch.  The supply of
draw batches doubles as fuel: `none` models a source run that is still
resampling. -/
def step_mutate (ranges : List (List ℚ)) (parent : List ℚ) (max_step : ℕ)
    (prev_used_params : List (List ℚ)) : List (List ℕ) → Option (List ℚ)
  | [] => none
  | draws :: rest =>
    if step_mutate_list ranges parent max_step draws ∈ prev_used_params then
      step_mutate ranges parent max_step prev_used_params rest
    else some (step_mutate_list ranges parent max_step draws)

theorem random_mutate_param_mem (r : List ℚ) (d : ℕ) (h : r ≠ []) :
    random_mutate_param r d ∈ r := by
  unfold random_mutate_param
  have hlen : 0 < r.length := List.length_pos.mpr h
  have hmod : d % r.length < r.length := Nat.mod_lt _ hlen
  rw [List.getD_eq_getElem _ _ hmod]
  exact List.getElem_mem hmod

theorem step_mutate_param_mem (r : List ℚ) (v : ℚ) (s d : ℕ) (h : r ≠ []) :
    step_mutate_param r v s d ∈ r := by
  unfold step_mutate_param
  have hlen : 0 < r.length := List.length_pos.mpr h
  have hidx : min (r.length - 1)
      (max 0 (gaussian_int (r.indexOf v) s d)).toNat < r.length :=
    lt_of_le_of_lt (min_le_left _ _) (Nat.sub_lt hlen one_pos)
  rw [List.getD_eq_getElem _ _ hidx]
  exact List.getElem_mem hidx

theorem forall2_ranges_ne_nil {parent : List ℚ} {ranges : List (List ℚ)}
    (h : List.Forall₂ (fun v r => v ∈ r) parent ranges) :
    ∀ r ∈ ranges, r ≠ [] := by
  induction h with
  | nil => intro r hr; cases hr
  | cons hv _ ih =>
    intro r hr
    rcases List.mem_cons.mp hr with rfl | hr2
    · exact List.ne_nil_of_mem hv
    · exact ih _ hr2

theorem random_mutate_list_mem :
    ∀ (ranges : List (List ℚ)) (draws : List ℕ),
      draws.length = ranges.length → (∀ r ∈ ranges, r ≠ []) →
      List.Forall₂ (fun x r => x ∈ r) (random_mutate_list ranges draws) ranges := by
  intro ranges
  induction ranges with
  | nil =>
    intro draws _ _
    cases draws <;> exact List.Forall₂.nil
  | cons r rs ih =>
    intro draws hlen hne
    cases draws with
    | nil => simp at hlen
    | cons d ds =>
      refine List.Forall₂.cons ?_ (ih ds (by simpa using hlen) ?_)
      · exact random_mutate_param_mem r d (hne r (by simp))
      · intro x hx; exact hne x (by simp [hx])

theorem step_mutate_list_mem :
    ∀ (ranges : List (List ℚ)) (parent : List ℚ) (s : ℕ) (draws : List ℕ),
      draws.length = ranges.length →
      List.Forall₂ (fun v r => v ∈ r) parent ranges →
      List.Forall₂ (fun x r => x ∈ r) (step_mutate_list ranges parent s draws)
        ranges := by
  intro ranges parent s draws hlen hpar
  induction hpar generalizing draws with
  | nil => cases draws <;> exact List.Forall₂.nil
  | cons hv hrest ih =>
    cases draws with
    | nil => simp at hlen
    | cons d ds =>
      exact List.Forall₂.cons
        (step_mutate_param_mem _ _ s d (List.ne_nil_of_mem hv))
        (ih ds (by simpa using hlen))

/-- Claim C7: for every mutable parameter, every value assigned by
`_random_mutate`, and by `_step_mutate` for a parent whose values lie in their
candidate sequences and any `max_step ≥ 1`, is an element of that parameter's
candidate sequence: the new index is clamped into `[0, len(candidates)-1]`,
so the membership invariant is preserved by every mutation. -/
theorem mutation_in_candidates :
    ∀ (ranges : List (List ℚ)) (parent : List ℚ) (max_step : ℕ)
      (rdraws sdraws : List ℕ),
      1 ≤ max_step →
      List.Forall₂ (fun v r => v ∈ r) parent ranges →
      rdraws.length = ranges.length →
      sdraws.length = ranges.length →
      List.Forall₂ (fun x r => x ∈ r) (random_mutate_list ranges rdraws) ranges ∧
      List.Forall₂ (fun x r => x ∈ r)
        (step_mutate_list ranges parent max_step sdraws) ranges := by
  intro ranges parent max_step rdraws sdraws _ hpar hr hs
  exact ⟨random_mutate_list_mem ranges rdraws hr (forall2_ranges_ne_nil hpar),
    step_mutate_list_mem ranges parent max_step sdraws hs hpar⟩

/-- Claim C7 witness: two parameters with candidate lists `[1,2,3]` and
`[4,5]`, parent `[2,4]`, `max_step = 1`. -/
theorem mutation_in_candidates_witness :
    1 ≤ 1 ∧
      List.Forall₂ (fun v (r : List ℚ) => v ∈ r) [2,4] [[1,2,3],[4,5]] ∧
      ([7,1] : List ℕ).length = ([[1,2,3],[4,5]] : List (List ℚ)).length ∧
      ([0,3] : List ℕ).length = ([[1,2,3],[4,5]] : List (List ℚ)).length ∧
      (List.Forall₂ (fun x r => x ∈ r)
          (random_mutate_list [[1,2,3],[4,5]] [7,1]) [[1,2,3],[4,5]] ∧
        List.Forall₂ (fun x r => x ∈ r)
          (step_mutate_list [[1,2,3],[4,5]] [2,4] 1 [0,3]) [[1,2,3],[4,5]]) :=
  ⟨le_refl 1, by decide, rfl, rfl,
    mutation_in_candidates [[1,2,3],[4,5]] [2,4] 1 [7,1] [0,3]
      (le_refl 1) (by decide) rfl rfl⟩

/-- Claim C8: while the history list holds fewer distinct assignments than the
full Cartesian product of the candidate sequences, `_step_mutate` never
returns an assignment already in the history — any returned assignment passed
the novelty check — and a novel assignment exists in the product. -/
theorem step_mutate_avoids_history :
    ∀ (ranges : List (List ℚ)) (parent : List ℚ) (max_step : ℕ)
      (prev : List (List ℚ)) (drawss : List (List ℕ)),
      prev.toFinset.card < (List.sections ranges).toFinset.card →
      (∀ res, step_mutate ranges parent max_step prev drawss = some res →
        res ∉ prev) ∧
      ∃ fresh ∈ List.sections ranges, fresh ∉ prev := by
  intro ranges parent max_step prev drawss hcard
  constructor
  · intro res hres
    induction drawss with
    | nil => simp [step_mutate] at hres
    | cons draws rest ih =>
      rw [step_mutate] at hres
      by_cases hmem : step_mutate_list ranges parent max_step draws ∈ prev
      · rw [if_pos hmem] at hres
        exact ih hres
      · rw [if_neg hmem] at hres
        obtain rfl := Option.some_injective _ hres.symm
        exact hmem
  · by_contra hno
    push_neg at hno
    have hsub : (List.sections ranges).toFinset ⊆ prev.toFinset := by
      intro x hx
      rw [List.mem_toFinset] at hx ⊢
      exact hno x hx
    exact absurd (Finset.card_le_card hsub) (not_le.mpr hcard)

/-- Claim C8 witness: one parameter with candidates `[1,2]`, empty history,
one batch of draws. -/
theorem step_mutate_avoids_history_witness :
    (([] : List (List ℚ)).toFinset.card <
        (List.sections [[1,2]] : List (List ℚ)).toFinset.card) ∧
      ((∀ res, step_mutate [[1,2]] [1] 1 [] [[0]] = some res → res ∉ []) ∧
        ∃ fresh ∈ List.sections [[(1:ℚ),2]], fresh ∉ ([] : List (List ℚ))) :=
  ⟨by decide, step_mutate_avoids_history [[1,2]] [1] 1 [] [[0]] (by decide)⟩

end Genetic

namespace Genetic

/-- genetic.py line 196, one parameter of `_update_param_count`'s loop:
`self.param_cnt[param][param_range.index(param_vals[param])] += 1`. -/
def update_param_count_param (param_range : List ℚ) (cnt : List ℕ) (val : ℚ) :
    List ℕ :=
  cnt.set (param_range.indexOf val) (cnt.getD (param_range.indexOf val) 0 + 1)

/-- genetic.py lines 195-196: the tally update over all parameters (ranges,
counters and accepted values as parallel lists). -/
def update_param_count : List (List ℚ) → List (List ℕ) → List ℚ → List (List ℕ)
  | r :: rs, c :: cs, v :: vs =>
      update_param_count_param r c v :: update_param_count rs cs vs
  | _, _, _ => []

/-- genetic.py line 194: the all-zero tally sized to the candidate sequences,
`{param: [0]*len(param_range) ...}`. -/
def zero_tally (ranges : List (List ℚ)) : List (List ℕ) :=
  ranges.map fun r => List.replicate r.length 0

/-- A sequence of accepted generations applied to a tally, one
`_update_param_count` call per accepted mutable assignment. -/
def run_accepts (ranges : List (List ℚ)) : List (List ℕ) → List (List ℚ) → List (List ℕ)
  | tally, [] => tally
  | tally, vs :: rest => run_accepts ranges (update_param_count ranges tally vs) rest

theorem sum_set_getD_succ :
    ∀ (l : List ℕ) (i : ℕ), i < l.length →
      (l.set i (l.getD i 0 + 1)).sum = l.sum + 1 := by
  intro l
  induction l with
  | nil => intro i hi; simp at hi
  | cons a t ih =>
    intro i hi
    cases i with
    | zero => simp [List.getD]; omega
    | succ j =>
      have hj : j < t.length := by simpa using hi
      simp only [List.set, List.getD_cons_succ, List.sum_cons]
      rw [ih j hj]
      omega

theorem update_param_count_param_sum (r : List ℚ) (c : List ℕ) (v : ℚ)
    (hv : v ∈ r) (hlen : c.length = r.length) :
    (update_param_count_param r c v).sum = c.sum + 1 ∧
      (update_param_count_param r c v).length = c.length := by
  have hidx : r.indexOf v < c.length := by
    rw [hlen]
    exact List.indexOf_lt_length.mpr hv
  exact ⟨sum_set_getD_succ c _ hidx, List.length_set c _ _⟩

theorem forall2_comp {α β γ : Type} {R : α → β → Prop} {S : β → γ → Prop}
    {T : α → γ → Prop} (h : ∀ a b c, R a b → S b c → T a c) :
    ∀ {xs : List α} {ys : List β} {zs : List γ},
      List.Forall₂ R xs ys → List.Forall₂ S ys zs → List.Forall₂ T xs zs := by
  intro xs ys zs h1
  induction h1 generalizing zs with
  | nil =>
    intro h2
    cases h2
    exact List.Forall₂.nil
  | cons hab _ ih =>
    intro h2
    cases h2 with
    | cons hbc hrest => exact List.Forall₂.cons (h _ _ _ hab hbc) (ih hrest)

theorem update_param_count_forall2 :
    ∀ (ranges : List (List ℚ)) (tally : List (List ℕ)) (vs : List ℚ),
      List.Forall₂ (fun (c : List ℕ) (r : List ℚ) => c.length = r.length) tally ranges →
      List.Forall₂ (fun v r => v ∈ r) vs ranges →
      List.Forall₂ (fun c2 c1 => c2.sum = c1.sum + 1 ∧ c2.length = c1.length)
        (update_param_count ranges tally vs) tally := by
  intro ranges tally vs hlen
  induction hlen generalizing vs with
  | nil =>
    intro hv
    cases hv
    exact List.Forall₂.nil
  | cons hcr _ ih =>
    intro hv
    cases hv with
    | cons hvr hrest =>
      exact List.Forall₂.cons
        (update_param_count_param_sum _ _ _ hvr hcr) (ih _ hrest)

theorem run_accepts_sum :
    ∀ (ranges : List (List ℚ)) (accepts : List (List ℚ)) (tally : List (List ℕ)),
      (∀ vs ∈ accepts, List.Forall₂ (fun v r => v ∈ r) vs ranges) →
      List.Forall₂ (fun (c : List ℕ) (r : List ℚ) => c.length = r.length) tally ranges →
      List.Forall₂
        (fun c2 c1 => c2.sum = c1.sum + accepts.length ∧ c2.length = c1.length)
        (run_accepts ranges tally accepts) tally := by
  intro ranges accepts
  induction accepts with
  | nil =>
    intro tally _ _
    rw [run_accepts]
    refine List.forall₂_same.mpr fun c _ => ⟨by simp, rfl⟩
  | cons vs rest ih =>
    intro tally hmem hlen
    rw [run_accepts]
    have h1 : List.Forall₂ (fun c2 c1 => c2.sum = c1.sum + 1 ∧ c2.length = c1.length)
        (update_param_count ranges tally vs) tally :=
      update_param_count_forall2 ranges tally vs hlen (hmem vs (by simp))
    have hlen1 : List.Forall₂ (fun (c : List ℕ) (r : List ℚ) => c.length = r.length)
        (update_param_count ranges tally vs) ranges :=
      forall2_comp (fun _ _ _ hab hbc => hab.2.trans hbc) h1 hlen
    have h2 := ih (update_param_count ranges tally vs)
      (fun v hv => hmem v (by simp [hv])) hlen1
    refine forall2_comp (fun c2 c1 c0 hab hbc => ?_) h2 h1
    refine ⟨?_, hab.2.trans hbc.2⟩
    rw [hab.1, hbc.1]
    simp [List.length_cons]
    omega

/-- Claim C9: starting from the all-zero tally sized to the current candidate
sequences, after any sequence of accepted generations whose values lie in the
candidate sequences, the sum of every parameter's counters equals the number
of accepted generations (each accept increments exactly one counter of each
parameter by 1). -/
theorem tally_sum_equals_accepts :
    ∀ (ranges : List (List ℚ)) (accepts : List (List ℚ)),
      (∀ vs ∈ accepts, List.Forall₂ (fun v r => v ∈ r) vs ranges) →
      List.Forall₂
        (fun (c : List ℕ) (r : List ℚ) =>
          c.sum = accepts.length ∧ c.length = r.length)
        (run_accepts ranges (zero_tally ranges) accepts) ranges := by
  intro ranges accepts hmem
  have hzero : List.Forall₂
      (fun (c : List ℕ) (r : List ℚ) => c.sum = 0 ∧ c.length = r.length)
      (zero_tally ranges) ranges := by
    rw [zero_tally, List.forall₂_map_left_iff]
    refine List.forall₂_same.mpr fun r _ => ⟨by simp, by simp⟩
  have hlen0 : List.Forall₂
      (fun (c : List ℕ) (r : List ℚ) => c.length = r.length)
      (zero_tally ranges) ranges := by
    rw [zero_tally, List.forall₂_map_left_iff]
    exact List.forall₂_same.mpr fun r _ => by simp
  have hrun := run_accepts_sum ranges accepts (zero_tally ranges) hmem hlen0
  refine forall2_comp (fun c2 c1 r hab hbc => ?_) hrun hzero
  exact ⟨by rw [hab.1, hbc.1, zero_add], hab.2.trans hbc.2⟩

/-- Claim C9 witness: one parameter with candidates `[1,2]` and three accepted
generations. -/
theorem tally_sum_equals_accepts_witness :
    (∀ vs ∈ ([[1],[2],[1]] : List (List ℚ)),
        List.Forall₂ (fun v (r : List ℚ) => v ∈ r) vs [[1,2]]) ∧
      List.Forall₂
        (fun (c : List ℕ) (r : List ℚ) =>
          c.sum = ([[1],[2],[1]] : List (List ℚ)).length ∧ c.length = r.length)
        (run_accepts [[1,2]] (zero_tally [[1,2]]) [[1],[2],[1]]) [[1,2]] :=
  ⟨by decide, tally_sum_equals_accepts [[1,2]] [[1],[2],[1]] (by decide)⟩

/-- Claim C5 counterexample: at a success rate exactly equal to
`TARGET_SUCCESS_RATE * 1.005` the code does enter CONFIRM (the guard is `>=`),
although the rate does not strictly exceed the margin, so "entered exactly when
the rate exceeds TARGET_SUCCESS_RATE * 1.005" fails at this input. -/
theorem confirm_trigger_boundary :
    confirm_triggered (TARGET_SUCCESS_RATE * (201/200)) = true ∧
      ¬ (TARGET_SUCCESS_RATE * (201/200) < TARGET_SUCCESS_RATE * (201/200)) := by
  constructor
  · simp only [confirm_triggered, decide_eq_true_eq, le_refl]
  · exact lt_irrefl _

/-- Claim C5 (amended): CONFIRM is entered exactly when the current success
rate is greater than or equal to `TARGET_SUCCESS_RATE * 1.005`; in particular a
rate of exactly `TARGET_SUCCESS_RATE` does not trigger it and a rate of
`TARGET_SUCCESS_RATE * 1.006` does. -/
theorem confirm_trigger_iff :
    (∀ r : ℚ, confirm_triggered r = true ↔ TARGET_SUCCESS_RATE * (201/200) ≤ r) ∧
      confirm_triggered TARGET_SUCCESS_RATE = false ∧
      confirm_triggered (TARGET_SUCCESS_RATE * (1006/1000)) = true := by
  refine ⟨fun r => by simp [confirm_triggered], ?_, ?_⟩
  · simp only [confirm_triggered, decide_eq_false_iff_not, not_le, TARGET_SUCCESS_RATE]
    norm_num
  · simp only [confirm_triggered, decide_eq_true_eq, TARGET_SUCCESS_RATE]
    norm_num

/-- Claim C6: the simulation budget is the integer part of
`max(INITIAL_MONTE_RUNS, min(MAX_MONTE_RUNS, MAX_MONTE_RUNS * (r + (1 -
TARGET_SUCCESS_RATE)) ^ 70))`; a prior rate of 0 yields `INITIAL_MONTE_RUNS`
and a prior rate of 0.95 yields exactly `MAX_MONTE_RUNS`. -/
theorem monte_budget_formula :
    (∀ r : ℚ, override_monte_carlo_runs r =
        ⌊max ((INITIAL_MONTE_RUNS : ℚ))
          (min ((MAX_MONTE_RUNS : ℚ))
            ((MAX_MONTE_RUNS : ℚ) * (r + (1 - TARGET_SUCCESS_RATE)) ^ 70))⌋) ∧
      override_monte_carlo_runs 0 = (INITIAL_MONTE_RUNS : ℤ) ∧
      override_monte_carlo_runs (95/100) = (MAX_MONTE_RUNS : ℤ) := by
  refine ⟨fun r => rfl, ?_, ?_⟩
  · have hx2 : (MAX_MONTE_RUNS : ℚ) * ((0:ℚ) + (1 - TARGET_SUCCESS_RATE)) ^ 70
        ≤ (MAX_MONTE_RUNS : ℚ) := by
      norm_num [MAX_MONTE_RUNS, TARGET_SUCCESS_RATE]
    have hx : min ((MAX_MONTE_RUNS : ℚ))
        ((MAX_MONTE_RUNS : ℚ) * ((0:ℚ) + (1 - TARGET_SUCCESS_RATE)) ^ 70)
        ≤ (INITIAL_MONTE_RUNS : ℚ) := by
      rw [min_eq_right hx2]
      norm_num [MAX_MONTE_RUNS, INITIAL_MONTE_RUNS, TARGET_SUCCESS_RATE]
    unfold override_monte_carlo_runs
    rw [max_eq_left hx, Int.floor_natCast]
  · have h1 : ((95:ℚ)/100 + (1 - TARGET_SUCCESS_RATE)) = 1 := by
      norm_num [TARGET_SUCCESS_RATE]
    unfold override_monte_carlo_runs
    rw [h1, one_pow, mul_one, min_self,
      max_eq_right (by norm_num [INITIAL_MONTE_RUNS, MAX_MONTE_RUNS]),
      Int.floor_natCast]

/-- Claim C4 counterexample: with parent rate 1/2, best child rate 1/2 (not a
strict improvement) and a counter of `ITER_LIMIT - 1 = 4`, the claim demands
the counter become `4 + 1 = 5`, but the code resets it to 0 (local-maximum
restart branch, genetic.py line 94). -/
theorem plateau_reset_at_limit :
    plateau_update (1/2) (1/2) 4 = 0 ∧ ¬ ((1/2 : ℚ) < 1/2) ∧ 4 + 1 ≠ 0 := by
  refine ⟨?_, lt_irrefl _, by decide⟩
  norm_num [plateau_update, ITER_LIMIT]

/-- Claim C4 (amended): in every EXPLORE generation the plateau counter becomes
0 exactly when the best child strictly exceeds the parent's success rate or
the incremented counter reaches `ITER_LIMIT` (the local-maximum restart), and
otherwise it increases by exactly 1. -/
theorem plateau_update_rule :
    ∀ (r b : ℚ) (q : ℕ),
      (plateau_update r b q = 0 ↔ (r < b ∨ ITER_LIMIT ≤ q + 1)) ∧
      (¬ (r < b ∨ ITER_LIMIT ≤ q + 1) → plateau_update r b q = q + 1) := by
  intro r b q
  unfold plateau_update
  rcases le_or_lt b r with h | h
  · rw [if_pos h]
    by_cases h2 : ITER_LIMIT ≤ q + 1
    · simp [h2]
    · simp [h2, not_lt.mpr h]
  · rw [if_neg (not_le.mpr h)]
    simp [h]

/-- Claim C4 witness: with parent rate 1, best child rate 0 and counter 0, the
counter increments to 1. -/
theorem plateau_update_rule_witness :
    ¬ ((1:ℚ) < 0 ∨ ITER_LIMIT ≤ 0 + 1) ∧ plateau_update 1 0 0 = 0 + 1 := by
  have h : ¬ ((1:ℚ) < 0 ∨ ITER_LIMIT ≤ 0 + 1) := by
    rintro (h | h)
    · exact absurd h (by norm_num)
    · exact absurd h (by decide)
  exact ⟨h, (plateau_update_rule 1 0 0).2 h⟩

/-- Claim C1 counterexample: with the loop's own monitored `last_date` 5 and a
persisted `last_date` 10 (persisted strictly later), the claim demands a
restart, but `_check_if_beaten` does not trigger one: the code restarts only
when its own date is strictly greater than the persisted one. -/
theorem overtake_later_persisted_no_restart :
    check_if_beaten [5] [10] = false ∧ (5:ℤ) < 10 := by
  exact ⟨by decide, by decide⟩

/-- Claim C1 (amended): `_check_if_beaten` triggers a restart exactly when, for
some monitored job entry, the persisted baseline's `last_date` is strictly
earlier (smaller) than the loop's own — dates are reduced as the search
advances, so an earlier persisted date means another instance has advanced;
when every persisted entry is equal to or later than the loop's own, no
restart occurs. -/
theorem check_if_beaten_iff :
    ∀ own persisted : List ℤ,
      check_if_beaten own persisted = true ↔
        ∃ i, ∃ h1 : i < own.length, ∃ h2 : i < persisted.length,
          persisted.get ⟨i, h2⟩ < own.get ⟨i, h1⟩ := by
  intro own persisted
  unfold check_if_beaten
  rw [List.any_eq_true]
  constructor
  · rintro ⟨p, hp, hlt⟩
    rw [List.mem_iff_getElem] at hp
    obtain ⟨i, hi, hpi⟩ := hp
    have h1 : i < own.length := List.lt_length_left_of_zip hi
    have h2 : i < persisted.length := List.lt_length_right_of_zip hi
    refine ⟨i, h1, h2, ?_⟩
    have hz : (own.zip persisted)[i] = (own[i], persisted[i]) := List.getElem_zip
    rw [hz] at hpi
    rw [← hpi] at hlt
    simpa using hlt
  · rintro ⟨i, h1, h2, hlt⟩
    have hi : i < (own.zip persisted).length := by
      rw [List.length_zip]
      exact lt_min h1 h2
    refine ⟨(own.zip persisted)[i], List.getElem_mem hi, ?_⟩
    have hz : (own.zip persisted)[i] = (own[i], persisted[i]) := List.getElem_zip
    rw [hz]
    simpa using hlt

/-- Claim C2: the abort guard of `Algorithm.main` (`if not children[-1][0]:
return None`, genetic.py lines 80, 98 and 114) is true not only for the
cancellation sentinel `None` but also for a legitimate success rate of exactly
0.0, so a non-cancelled result of 0.0 terminates the search, contrary to the
claim that only cancellation aborts; a nonzero rate continues the loop. -/
theorem zero_rate_treated_as_cancel :
    explore_abort_guard (some 0) = true ∧ explore_abort_guard none = true ∧
      explore_abort_guard (some (1/2)) = false := by
  refine ⟨?_, rfl, ?_⟩
  · simp [explore_abort_guard, py_falsy_rate]
  · norm_num [explore_abort_guard, py_falsy_rate]

/-- Claim C3 counterexample: entering CONFIRM with prior rate 24/25 = 0.96 and
a high-fidelity re-evaluation of 1/2 < `TARGET_SUCCESS_RATE`, the loop resumes
with `success_rate = 1/2`, not the prior 24/25: only the parent assignment is
left unchanged, the rate is overwritten on genetic.py line 113. -/
theorem confirm_fail_overwrites_rate :
    (confirm_block 1000 (24/25) [3] (some (1/2))).success_rate = 1/2 ∧
      (confirm_block 1000 (24/25) [3] (some (1/2))).parent = [3] ∧
      ((1/2 : ℚ) ≠ 24/25) ∧
      confirm_triggered (24/25) = true ∧ (1/2 : ℚ) < TARGET_SUCCESS_RATE := by
  have ht : confirm_triggered (24/25) = true := by
    simp only [confirm_triggered, decide_eq_true_eq, TARGET_SUCCESS_RATE]
    norm_num
  have hblock : confirm_block 1000 (24/25) [3] (some (1/2)) =
      ⟨false, 1/2, [3], 1000, false⟩ := by
    unfold confirm_block
    rw [ht]
    norm_num [TARGET_SUCCESS_RATE]
  refine ⟨by rw [hblock], by rw [hblock], by norm_num, ht, ?_⟩
  norm_num [TARGET_SUCCESS_RATE]

/-- Claim C3 (amended): a failed CONFIRM re-evaluation (high-fidelity rate
below `TARGET_SUCCESS_RATE`, nonzero so the cancellation guard passes) resumes
EXPLORE with the parent assignment unchanged but with the loop's success rate
replaced by the failed high-fidelity rate; the Monte-Carlo global is restored
and the ADVANCE branch is not taken. -/
theorem confirm_fail_resumes_explore :
    ∀ (prev : ℕ) (rate : ℚ) (parent : List ℚ) (r : ℚ),
      confirm_triggered rate = true → r < TARGET_SUCCESS_RATE → r ≠ 0 →
      confirm_block prev rate parent (some r) = ⟨false, r, parent, prev, false⟩ := by
  intro prev rate parent r ht hlt hne
  unfold confirm_block
  rw [ht]
  simp [hne, hlt]

/-- Claim C3 witness: concrete failed confirmation at prior rate 24/25 and
high-fidelity rate 1/2. -/
theorem confirm_fail_resumes_explore_witness :
    confirm_triggered (24/25) = true ∧ ((1:ℚ)/2 < TARGET_SUCCESS_RATE) ∧
      ((1:ℚ)/2 ≠ 0) ∧
      confirm_block 7 (24/25) [] (some (1/2)) = ⟨false, 1/2, [], 7, false⟩ := by
  have h1 : confirm_triggered (24/25) = true := by
    simp only [confirm_triggered, decide_eq_true_eq, TARGET_SUCCESS_RATE]
    norm_num
  have h2 : (1:ℚ)/2 < TARGET_SUCCESS_RATE := by norm_num [TARGET_SUCCESS_RATE]
  have h3 : (1:ℚ)/2 ≠ 0 := by norm_num
  exact ⟨h1, h2, h3, confirm_fail_resumes_explore 7 (24/25) [] (1/2) h1 h2 h3⟩

/-- Claim C10: if the oracle is cancelled during the CONFIRM re-evaluation,
`main` returns while `simulator.MONTE_CARLO_RUNS` is still overridden to
`MAX_MONTE_RUNS`; the saved previous value is restored only when the
evaluation is not cancelled (and its rate is nonzero, since the Python guard
`not success_rate` also catches 0.0). -/
theorem confirm_cancel_leaves_override :
    ∀ (prev : ℕ) (rate : ℚ) (parent : List ℚ),
      confirm_triggered rate = true →
      ((confirm_block prev rate parent none).monte_runs = MAX_MONTE_RUNS ∧
        (confirm_block prev rate parent none).returned = true ∧
        ∀ r : ℚ, r ≠ 0 →
          (confirm_block prev rate parent (some r)).monte_runs = prev) := by
  intro prev rate parent ht
  refine ⟨?_, ?_, ?_⟩
  · unfold confirm_block
    rw [ht]
    simp
  · unfold confirm_block
    rw [ht]
    simp
  · intro r hne
    unfold confirm_block
    rw [ht]
    by_cases hlt : r < TARGET_SUCCESS_RATE <;> simp [hne, hlt]

/-- Claim C10 witness: concrete cancelled and non-cancelled confirmations at
prior rate 24/25 with saved budget 321. -/
theorem confirm_cancel_leaves_override_witness :
    confirm_triggered (24/25) = true ∧ ((1:ℚ)/2 ≠ 0) ∧
      ((confirm_block 321 (24/25) [] none).monte_runs = MAX_MONTE_RUNS ∧
        (confirm_block 321 (24/25) [] none).returned = true ∧
        (confirm_block 321 (24/25) [] (some (1/2))).monte_runs = 321) := by
  have h1 : confirm_triggered (24/25) = true := by
    simp only [confirm_triggered, decide_eq_true_eq, TARGET_SUCCESS_RATE]
    norm_num
  have h2 : (1:ℚ)/2 ≠ 0 := by norm_num
  obtain ⟨ha, hb, hc⟩ := confirm_cancel_leaves_override 321 (24/25) [] h1
  exact ⟨h1, h2, ha, hb, hc (1/2) h2⟩

end Genetic
